import Mathlib

/-!
# Verification development for the `2fa` command-line authenticator

Shallow embedding of `main.go`: the account collection, the `add`, `import`
and `delete` commands, and the remaining-seconds computation of `printCodes`,
together with models of the library routines they call (`encoding/base32`,
`strings`, and the RFC 4226 / RFC 6238 code generator).
-/

namespace TwoFA

/-! ## Data model -/

/-- Record `Account` of `main.go` (lines 20-24). An omitted `Issuer` is the empty string. -/
structure Account where
  Name : String
  Secret : String
  Issuer : String
deriving DecidableEq, Repr

/-- One `OtpParameters` record of a decoded migration payload: raw secret bytes,
name and issuer (the fields read by the merge loop). -/
structure OtpParameters where
  Secret : List (Fin 256)
  Name : String
  Issuer : String
deriving DecidableEq, Repr

deriving instance DecidableEq for Except

/-! ## `encoding/base32`: encoder

The sources call the base-32 routines of the Go standard library (lines 67, 68 and 118);
they are not part of `main.go`. The definitions of this section and of the decoder section
follow the library routine statement by statement. -/

/-- The alphabet `encodeStd` of `encoding/base32`, as byte values. -/
def encodeStd : List Nat :=
  [65, 66, 67, 68, 69, 70, 71, 72, 73, 74, 75, 76, 77, 78, 79, 80,
   81, 82, 83, 84, 85, 86, 87, 88, 89, 90, 50, 51, 52, 53, 54, 55]

/-- Unpacking of one source quantum (at most five bytes) into eight 5-bit blocks:
the `switch len(src)` of `Encoding.Encode`, byte shifts truncated to 8 bits. -/
def encodeQuantum (src : List Nat) : List Nat :=
  let s := fun i => src.getD i 0
  let n := src.length
  let b7 := if 5 ≤ n then s 4 &&& 0x1F else 0
  let b6 := (if 5 ≤ n then s 4 >>> 5 else 0) ||| (if 4 ≤ n then ((s 3 <<< 3) % 256) &&& 0x1F else 0)
  let b5 := if 4 ≤ n then (s 3 >>> 2) &&& 0x1F else 0
  let b4 := (if 4 ≤ n then s 3 >>> 7 else 0) ||| (if 3 ≤ n then ((s 2 <<< 1) % 256) &&& 0x1F else 0)
  let b3 := (if 3 ≤ n then (s 2 >>> 4) &&& 0x1F else 0) |||
    (if 2 ≤ n then ((s 1 <<< 4) % 256) &&& 0x1F else 0)
  let b2 := if 2 ≤ n then (s 1 >>> 1) &&& 0x1F else 0
  let b1 := (if 2 ≤ n then (s 1 >>> 6) &&& 0x1F else 0) |||
    (if 1 ≤ n then ((s 0 <<< 2) % 256) &&& 0x1F else 0)
  let b0 := if 1 ≤ n then s 0 >>> 3 else 0
  [b0, b1, b2, b3, b4, b5, b6, b7].map fun b => encodeStd.getD (b &&& 31) 0

/-- The quantum loop of `Encoding.Encode`: eight output bytes per five input bytes. -/
def encodeChunks : List Nat → List Nat
  | [] => []
  | a :: b :: c :: d :: e :: rest => encodeQuantum [a, b, c, d, e] ++ encodeChunks rest
  | a :: rest => encodeQuantum (a :: rest)

/-- Method `EncodedLen` for an encoding without padding. -/
def encodedLenNoPad (n : Nat) : Nat := n / 5 * 8 + (n % 5 * 8 + 4) / 5

/-- Call `base32.StdEncoding.WithPadding(base32.NoPadding).EncodeToString(src)`:
the destination has `EncodedLen` bytes, so the last quantum is cut there. -/
def encodeToStringNoPad (src : List (Fin 256)) : String :=
  String.mk (((encodeChunks (src.map Fin.val)).take (encodedLenNoPad src.length)).map Char.ofNat)

/-- Method `EncodedLen` for an encoding with padding. -/
def encodedLenStd (n : Nat) : Nat := (n + 4) / 5 * 8

/-- Call `base32.StdEncoding.EncodeToString(src)`: the unpadded text followed by equals
signs up to the next multiple of eight (RFC 4648 padded form). -/
def encodeToStringStd (src : List (Fin 256)) : String :=
  String.mk (((encodeChunks (src.map Fin.val)).take (encodedLenNoPad src.length) ++
    List.replicate (encodedLenStd src.length - encodedLenNoPad src.length) 61).map Char.ofNat)

/-! ## `import`: the merge loop (lines 117-141) -/

/-- Lines 119-122: the display name of an imported record. -/
def displayName (p : OtpParameters) : String :=
  if p.Issuer != "" then p.Issuer ++ ":" ++ p.Name else p.Name

/-- Lines 125-136: linear scan of `entries` for an equal `Secret`. -/
def secretExists : List Account → String → Bool
  | [], _ => false
  | e :: es, secret => if e.Secret == secret then true else secretExists es secret

/-- The account the loop body appends for record `p` (line 138). -/
def importedAccount (p : OtpParameters) : Account :=
  { Name := displayName p, Secret := encodeToStringNoPad p.Secret, Issuer := p.Issuer }

/-- One iteration of the loop over `payload.OtpParameters` on the state `(entries, count)`. -/
def mergeStep (st : List Account × Nat) (p : OtpParameters) : List Account × Nat :=
  let secret := encodeToStringNoPad p.Secret
  if !secretExists st.1 secret then
    (st.1 ++ [importedAccount p], st.2 + 1)
  else st

/-- The loop over the records of a payload, started from `entries` with `count = 0`. -/
def merge (entries : List Account) (records : List OtpParameters) : List Account × Nat :=
  records.foldl mergeStep (entries, 0)

/-- Secrets of a collection are pairwise distinct. -/
def UniqueBySecret (entries : List Account) : Prop :=
  (entries.map Account.Secret).Nodup

instance (entries : List Account) : Decidable (UniqueBySecret entries) := by
  unfold UniqueBySecret; infer_instance

/-! ## `printCodes`: remaining seconds (lines 209-213) -/

/-- Line 211: `period := 30`. -/
def period : Int := 30

/-- Line 213: `remainder := period - int(unix%int64(period))` for the `int64` value `unix`.
The remainder operator of Go truncates toward zero (`Int.tmod`); for `unix` in the
`int64` range no intermediate value leaves that range. -/
def remainder (unix : Int) : Int := period - Int.tmod unix period

/-- Range of the `int64` values. -/
def IsInt64 (x : Int) : Prop := -(2 : Int) ^ 63 ≤ x ∧ x < (2 : Int) ^ 63

/-! ## `strings` helpers used by `add` and `delete` -/

/-- Simple upper-case mappings of the Unicode Character Database (version 14.0) beyond
ASCII, the content of the table `unicode.CaseRanges` read by `unicode.ToUpper`: an entry
`(lo, hi, stride, delta)` moves every `stride`-th code point from `lo` to `hi` by `delta`. -/
def upperRanges : List (Nat × Nat × Nat × Int) :=
  [(181, 181, 1, 743), (224, 246, 1, -32), (248, 254, 1, -32), (255, 255, 1, 121),
   (257, 303, 2, -1), (305, 305, 1, -232), (307, 311, 2, -1), (314, 328, 2, -1),
   (331, 375, 2, -1), (378, 382, 2, -1), (383, 383, 1, -300), (384, 384, 1, 195),
   (387, 389, 2, -1), (392, 392, 1, -1), (396, 396, 1, -1), (402, 402, 1, -1),
   (405, 405, 1, 97), (409, 409, 1, -1), (410, 410, 1, 163), (414, 414, 1, 130),
   (417, 421, 2, -1), (424, 424, 1, -1), (429, 429, 1, -1), (432, 432, 1, -1),
   (436, 438, 2, -1), (441, 441, 1, -1), (445, 445, 1, -1), (447, 447, 1, 56),
   (453, 453, 1, -1), (454, 454, 1, -2), (456, 456, 1, -1), (457, 457, 1, -2),
   (459, 459, 1, -1), (460, 460, 1, -2), (462, 476, 2, -1), (477, 477, 1, -79),
   (479, 495, 2, -1), (498, 498, 1, -1), (499, 499, 1, -2), (501, 501, 1, -1),
   (505, 543, 2, -1), (547, 563, 2, -1), (572, 572, 1, -1), (575, 576, 1, 10815),
   (578, 578, 1, -1), (583, 591, 2, -1), (592, 592, 1, 10783), (593, 593, 1, 10780),
   (594, 594, 1, 10782), (595, 595, 1, -210), (596, 596, 1, -206), (598, 599, 1, -205),
   (601, 601, 1, -202), (603, 603, 1, -203), (604, 604, 1, 42319), (608, 608, 1, -205),
   (609, 609, 1, 42315), (611, 611, 1, -207), (613, 613, 1, 42280), (614, 614, 1, 42308),
   (616, 616, 1, -209), (617, 617, 1, -211), (618, 618, 1, 42308), (619, 619, 1, 10743),
   (620, 620, 1, 42305), (623, 623, 1, -211), (625, 625, 1, 10749), (626, 626, 1, -213),
   (629, 629, 1, -214), (637, 637, 1, 10727), (640, 640, 1, -218), (642, 642, 1, 42307),
   (643, 643, 1, -218), (647, 647, 1, 42282), (648, 648, 1, -218), (649, 649, 1, -69),
   (650, 651, 1, -217), (652, 652, 1, -71), (658, 658, 1, -219), (669, 669, 1, 42261),
   (670, 670, 1, 42258), (837, 837, 1, 84), (881, 883, 2, -1), (887, 887, 1, -1),
   (891, 893, 1, 130), (940, 940, 1, -38), (941, 943, 1, -37), (945, 961, 1, -32),
   (962, 962, 1, -31), (963, 971, 1, -32), (972, 972, 1, -64), (973, 974, 1, -63),
   (976, 976, 1, -62), (977, 977, 1, -57), (981, 981, 1, -47), (982, 982, 1, -54),
   (983, 983, 1, -8), (985, 1007, 2, -1), (1008, 1008, 1, -86), (1009, 1009, 1, -80),
   (1010, 1010, 1, 7), (1011, 1011, 1, -116), (1013, 1013, 1, -96), (1016, 1016, 1, -1),
   (1019, 1019, 1, -1), (1072, 1103, 1, -32), (1104, 1119, 1, -80), (1121, 1153, 2, -1),
   (1163, 1215, 2, -1), (1218, 1230, 2, -1), (1231, 1231, 1, -15), (1233, 1327, 2, -1),
   (1377, 1414, 1, -48), (4304, 4346, 1, 3008), (4349, 4351, 1, 3008), (5112, 5117, 1, -8),
   (7296, 7296, 1, -6254), (7297, 7297, 1, -6253), (7298, 7298, 1, -6244),
   (7299, 7300, 1, -6242), (7301, 7301, 1, -6243), (7302, 7302, 1, -6236),
   (7303, 7303, 1, -6181), (7304, 7304, 1, 35266), (7545, 7545, 1, 35332),
   (7549, 7549, 1, 3814), (7566, 7566, 1, 35384), (7681, 7829, 2, -1), (7835, 7835, 1, -59),
   (7841, 7935, 2, -1), (7936, 7943, 1, 8), (7952, 7957, 1, 8), (7968, 7975, 1, 8),
   (7984, 7991, 1, 8), (8000, 8005, 1, 8), (8017, 8023, 2, 8), (8032, 8039, 1, 8),
   (8048, 8049, 1, 74), (8050, 8053, 1, 86), (8054, 8055, 1, 100), (8056, 8057, 1, 128),
   (8058, 8059, 1, 112), (8060, 8061, 1, 126), (8064, 8071, 1, 8), (8080, 8087, 1, 8),
   (8096, 8103, 1, 8), (8112, 8113, 1, 8), (8115, 8115, 1, 9), (8126, 8126, 1, -7205),
   (8131, 8131, 1, 9), (8144, 8145, 1, 8), (8160, 8161, 1, 8), (8165, 8165, 1, 7),
   (8179, 8179, 1, 9), (8526, 8526, 1, -28), (8560, 8575, 1, -16), (8580, 8580, 1, -1),
   (9424, 9449, 1, -26), (11312, 11359, 1, -48), (11361, 11361, 1, -1),
   (11365, 11365, 1, -10795), (11366, 11366, 1, -10792), (11368, 11372, 2, -1),
   (11379, 11379, 1, -1), (11382, 11382, 1, -1), (11393, 11491, 2, -1), (11500, 11502, 2, -1),
   (11507, 11507, 1, -1), (11520, 11557, 1, -7264), (11559, 11559, 1, -7264),
   (11565, 11565, 1, -7264), (42561, 42605, 2, -1), (42625, 42651, 2, -1),
   (42787, 42799, 2, -1), (42803, 42863, 2, -1), (42874, 42876, 2, -1), (42879, 42887, 2, -1),
   (42892, 42892, 1, -1), (42897, 42899, 2, -1), (42900, 42900, 1, 48), (42903, 42921, 2, -1),
   (42933, 42947, 2, -1), (42952, 42954, 2, -1), (42961, 42961, 1, -1), (42967, 42969, 2, -1),
   (42998, 42998, 1, -1), (43859, 43859, 1, -928), (43888, 43967, 1, -38864),
   (65345, 65370, 1, -32), (66600, 66639, 1, -40), (66776, 66811, 1, -40),
   (66967, 66977, 1, -39), (66979, 66993, 1, -39), (66995, 67001, 1, -39),
   (67003, 67004, 1, -39), (68800, 68850, 1, -64), (71872, 71903, 1, -32),
   (93792, 93823, 1, -32), (125218, 125251, 1, -34)]

/-- Simple lower-case mappings of the Unicode Character Database (version 14.0) beyond
ASCII, read by `unicode.ToLower`; entries as in `upperRanges`. -/
def lowerRanges : List (Nat × Nat × Nat × Int) :=
  [(192, 214, 1, 32), (216, 222, 1, 32), (256, 302, 2, 1), (304, 304, 1, -199),
   (306, 310, 2, 1), (313, 327, 2, 1), (330, 374, 2, 1), (376, 376, 1, -121), (377, 381, 2, 1),
   (385, 385, 1, 210), (386, 388, 2, 1), (390, 390, 1, 206), (391, 391, 1, 1),
   (393, 394, 1, 205), (395, 395, 1, 1), (398, 398, 1, 79), (399, 399, 1, 202),
   (400, 400, 1, 203), (401, 401, 1, 1), (403, 403, 1, 205), (404, 404, 1, 207),
   (406, 406, 1, 211), (407, 407, 1, 209), (408, 408, 1, 1), (412, 412, 1, 211),
   (413, 413, 1, 213), (415, 415, 1, 214), (416, 420, 2, 1), (422, 422, 1, 218),
   (423, 423, 1, 1), (425, 425, 1, 218), (428, 428, 1, 1), (430, 430, 1, 218), (431, 431, 1, 1),
   (433, 434, 1, 217), (435, 437, 2, 1), (439, 439, 1, 219), (440, 440, 1, 1), (444, 444, 1, 1),
   (452, 452, 1, 2), (453, 453, 1, 1), (455, 455, 1, 2), (456, 456, 1, 1), (458, 458, 1, 2),
   (459, 475, 2, 1), (478, 494, 2, 1), (497, 497, 1, 2), (498, 500, 2, 1), (502, 502, 1, -97),
   (503, 503, 1, -56), (504, 542, 2, 1), (544, 544, 1, -130), (546, 562, 2, 1),
   (570, 570, 1, 10795), (571, 571, 1, 1), (573, 573, 1, -163), (574, 574, 1, 10792),
   (577, 577, 1, 1), (579, 579, 1, -195), (580, 580, 1, 69), (581, 581, 1, 71),
   (582, 590, 2, 1), (880, 882, 2, 1), (886, 886, 1, 1), (895, 895, 1, 116), (902, 902, 1, 38),
   (904, 906, 1, 37), (908, 908, 1, 64), (910, 911, 1, 63), (913, 929, 1, 32),
   (931, 939, 1, 32), (975, 975, 1, 8), (984, 1006, 2, 1), (1012, 1012, 1, -60),
   (1015, 1015, 1, 1), (1017, 1017, 1, -7), (1018, 1018, 1, 1), (1021, 1023, 1, -130),
   (1024, 1039, 1, 80), (1040, 1071, 1, 32), (1120, 1152, 2, 1), (1162, 1214, 2, 1),
   (1216, 1216, 1, 15), (1217, 1229, 2, 1), (1232, 1326, 2, 1), (1329, 1366, 1, 48),
   (4256, 4293, 1, 7264), (4295, 4295, 1, 7264), (4301, 4301, 1, 7264), (5024, 5103, 1, 38864),
   (5104, 5109, 1, 8), (7312, 7354, 1, -3008), (7357, 7359, 1, -3008), (7680, 7828, 2, 1),
   (7838, 7838, 1, -7615), (7840, 7934, 2, 1), (7944, 7951, 1, -8), (7960, 7965, 1, -8),
   (7976, 7983, 1, -8), (7992, 7999, 1, -8), (8008, 8013, 1, -8), (8025, 8031, 2, -8),
   (8040, 8047, 1, -8), (8072, 8079, 1, -8), (8088, 8095, 1, -8), (8104, 8111, 1, -8),
   (8120, 8121, 1, -8), (8122, 8123, 1, -74), (8124, 8124, 1, -9), (8136, 8139, 1, -86),
   (8140, 8140, 1, -9), (8152, 8153, 1, -8), (8154, 8155, 1, -100), (8168, 8169, 1, -8),
   (8170, 8171, 1, -112), (8172, 8172, 1, -7), (8184, 8185, 1, -128), (8186, 8187, 1, -126),
   (8188, 8188, 1, -9), (8486, 8486, 1, -7517), (8490, 8490, 1, -8383), (8491, 8491, 1, -8262),
   (8498, 8498, 1, 28), (8544, 8559, 1, 16), (8579, 8579, 1, 1), (9398, 9423, 1, 26),
   (11264, 11311, 1, 48), (11360, 11360, 1, 1), (11362, 11362, 1, -10743),
   (11363, 11363, 1, -3814), (11364, 11364, 1, -10727), (11367, 11371, 2, 1),
   (11373, 11373, 1, -10780), (11374, 11374, 1, -10749), (11375, 11375, 1, -10783),
   (11376, 11376, 1, -10782), (11378, 11378, 1, 1), (11381, 11381, 1, 1),
   (11390, 11391, 1, -10815), (11392, 11490, 2, 1), (11499, 11501, 2, 1), (11506, 11506, 1, 1),
   (42560, 42604, 2, 1), (42624, 42650, 2, 1), (42786, 42798, 2, 1), (42802, 42862, 2, 1),
   (42873, 42875, 2, 1), (42877, 42877, 1, -35332), (42878, 42886, 2, 1), (42891, 42891, 1, 1),
   (42893, 42893, 1, -42280), (42896, 42898, 2, 1), (42902, 42920, 2, 1),
   (42922, 42922, 1, -42308), (42923, 42923, 1, -42319), (42924, 42924, 1, -42315),
   (42925, 42925, 1, -42305), (42926, 42926, 1, -42308), (42928, 42928, 1, -42258),
   (42929, 42929, 1, -42282), (42930, 42930, 1, -42261), (42931, 42931, 1, 928),
   (42932, 42946, 2, 1), (42948, 42948, 1, -48), (42949, 42949, 1, -42307),
   (42950, 42950, 1, -35384), (42951, 42953, 2, 1), (42960, 42960, 1, 1), (42966, 42968, 2, 1),
   (42997, 42997, 1, 1), (65313, 65338, 1, 32), (66560, 66599, 1, 40), (66736, 66771, 1, 40),
   (66928, 66938, 1, 39), (66940, 66954, 1, 39), (66956, 66962, 1, 39), (66964, 66965, 1, 39),
   (68736, 68786, 1, 64), (71840, 71871, 1, 32), (93760, 93791, 1, 32), (125184, 125217, 1, 34)]

/-- Lookup of a code point in a case table; a code point without entry is kept. -/
def caseShift (ranges : List (Nat × Nat × Nat × Int)) (v : Nat) : Nat :=
  match ranges.find? fun r =>
      decide (r.1 ≤ v) && decide (v ≤ r.2.1) && ((v - r.1) % r.2.2.1 == 0) with
  | some r => ((v : Int) + r.2.2.2).toNat
  | none => v

/-- Function `unicode.ToUpper`: the ASCII letters directly, the other runes through the
case table. -/
def toUpperRune (c : Char) : Char :=
  if 'a' ≤ c ∧ c ≤ 'z' then Char.ofNat (c.toNat - 32)
  else if c.toNat < 128 then c
  else Char.ofNat (caseShift upperRanges c.toNat)

/-- Call `strings.ToUpper(s)`. -/
def toUpper (s : String) : String := String.mk (s.data.map toUpperRune)

/-- Function `unicode.ToLower`: the ASCII letters directly, the other runes through the
case table. -/
def toLowerRune (c : Char) : Char :=
  if 'A' ≤ c ∧ c ≤ 'Z' then Char.ofNat (c.toNat + 32)
  else if c.toNat < 128 then c
  else Char.ofNat (caseShift lowerRanges c.toNat)

/-- Call `strings.ToLower(s)`. -/
def toLower (s : String) : String := String.mk (s.data.map toLowerRune)

/-- Call `strings.ReplaceAll(s, " ", "")`: every U+0020 is dropped, nothing else. -/
def removeSpaces (s : String) : String := String.mk (s.data.filter fun c => c != ' ')

/-- Call `strings.Contains(s, substr)`. -/
def contains (s substr : String) : Bool := decide (substr.data <:+: s.data)

/-- Predicate `unicode.IsSpace` on a code point. -/
def isSpaceCode (v : Nat) : Bool :=
  (9 ≤ v && v ≤ 13) || v == 0x20 || v == 0x85 || v == 0xA0 || v == 0x1680 ||
    (0x2000 ≤ v && v ≤ 0x200A) || v == 0x2028 || v == 0x2029 || v == 0x202F ||
    v == 0x205F || v == 0x3000

/-- Predicate `unicode.IsSpace`, the runes removed by `strings.TrimSpace`. -/
def isSpaceRune (c : Char) : Bool := isSpaceCode c.toNat

/-- Call `strings.TrimSpace(s)`. -/
def trimSpace (s : String) : String :=
  String.mk ((s.data.dropWhile isSpaceRune).reverse.dropWhile isSpaceRune).reverse

/-- UTF-8 bytes of one rune. -/
def utf8EncodeRune (c : Char) : List Nat :=
  let v := c.toNat
  if v < 0x80 then [v]
  else if v < 0x800 then [0xC0 ||| (v >>> 6), 0x80 ||| (v &&& 0x3F)]
  else if v < 0x10000 then
    [0xE0 ||| (v >>> 12), 0x80 ||| ((v >>> 6) &&& 0x3F), 0x80 ||| (v &&& 0x3F)]
  else
    [0xF0 ||| (v >>> 18), 0x80 ||| ((v >>> 12) &&& 0x3F), 0x80 ||| ((v >>> 6) &&& 0x3F),
      0x80 ||| (v &&& 0x3F)]

/-- Conversion `[]byte(s)`. -/
def bytesOf (s : String) : List Nat := s.data.flatMap utf8EncodeRune

/-! ## `encoding/base32`: decoder

Library routine `Encoding.DecodeString`, called on lines 67 and 68: `stripNewlines`, then
the quantum loop of `decode`. -/

/-- Padding runes: `StdPadding` is the equals sign, `NoPadding` is `-1`. -/
def StdPadding : Int := 61

/-- Rune `NoPadding`. -/
def NoPadding : Int := -1

/-- Conversion `byte(enc.padChar)`. -/
def padByte (padChar : Int) : Nat := (padChar % 256).toNat

/-- Table `decodeMap` of the standard alphabet: the index of the byte in `encodeStd`,
`0xFF` for every other byte. -/
def decodeMap (b : Nat) : Nat :=
  if b ∈ encodeStd then encodeStd.indexOf b else 0xFF

/-- Function `stripNewlines`: drops carriage returns and line feeds. -/
def stripNewlines (src : List Nat) : List Nat :=
  src.filter fun c => !(c == 13 || c == 10)

/-- In the padding branch of `decode`: index of the first of the next `cnt` source
bytes that is present and is not the padding byte. -/
def firstBadPadding (pad : Nat) (src : List Nat) (cnt : Nat) : Option Nat :=
  (List.range cnt).find? fun k => decide (k < src.length) && (src.getD k 0 != pad)

/-- The inner loop `for j := 0; j < 8` of `decode`, with `j = dbuf.length` and `k`
iterations left. An error carries the position of `CorruptInputError`; a result is
`(dbuf, dlen, end, src)`. -/
def decodeQuantum (padChar : Int) (olen : Nat) :
    Nat → List Nat → List Nat → Except Nat (List Nat × Nat × Bool × List Nat)
  | 0, dbuf, src => .ok (dbuf, 8, false, src)
  | k + 1, dbuf, src =>
    let j := dbuf.length
    match src with
    | [] =>
      if padChar ≠ NoPadding then .error (olen - j)
      else .ok (dbuf, j, true, [])
    | c :: rest =>
      if c = padByte padChar ∧ 2 ≤ j ∧ rest.length < 8 then
        if rest.length + j < 8 - 1 then .error olen
        else
          match firstBadPadding (padByte padChar) rest (8 - 1 - j) with
          | some i => .error (olen - rest.length + i - 1)
          | none =>
            if j = 1 ∨ j = 3 ∨ j = 6 then .error (olen - rest.length - 1)
            else .ok (dbuf, j, true, rest)
      else if decodeMap c = 0xFF then .error (olen - rest.length - 1)
      else decodeQuantum padChar olen k (dbuf ++ [decodeMap c]) rest

/-- The `switch dlen` of `decode`: packs the 5-bit blocks into bytes (byte arithmetic,
hence the reductions modulo 256). Lengths 1, 3 and 6 match no case. -/
def packQuantum (dbuf : List Nat) (dlen : Nat) : List Nat :=
  let d := fun i => dbuf.getD i 0
  let b0 := ((d 0 <<< 3) ||| (d 1 >>> 2)) % 256
  let b1 := ((d 1 <<< 6) ||| (d 2 <<< 1) ||| (d 3 >>> 4)) % 256
  let b2 := ((d 3 <<< 4) ||| (d 4 >>> 1)) % 256
  let b3 := ((d 4 <<< 7) ||| (d 5 <<< 2) ||| (d 6 >>> 3)) % 256
  let b4 := ((d 6 <<< 5) ||| d 7) % 256
  if dlen = 8 then [b0, b1, b2, b3, b4]
  else if dlen = 7 then [b0, b1, b2, b3]
  else if dlen = 5 then [b0, b1, b2]
  else if dlen = 4 then [b0, b1]
  else if dlen = 2 then [b0]
  else []

/-- The outer loop `for len(src) > 0 && !end` of `decode`; `dst` collects `dst[:n]`.
Every iteration consumes a source byte, so the `src.length + 1` rounds of fuel given by
`decodeString` are never used up; running out of fuel is reported as an error. -/
def decodeLoop (padChar : Int) (olen : Nat) : Nat → List Nat → List Nat → Except Nat (List Nat)
  | 0, _, _ => .error olen
  | fuel + 1, src, dst =>
    if src = [] then .ok dst
    else
      match decodeQuantum padChar olen 8 [] src with
      | .error e => .error e
      | .ok (dbuf, dlen, isEnd, rest) =>
        if isEnd then .ok (dst ++ packQuantum dbuf dlen)
        else decodeLoop padChar olen fuel rest (dst ++ packQuantum dbuf dlen)

/-- Method `DecodeString` of the standard alphabet with padding rune `padChar`. -/
def decodeString (padChar : Int) (s : String) : Except Nat (List Nat) :=
  let src := stripNewlines (bytesOf s)
  decodeLoop padChar src.length (src.length + 1) src []

/-! ## `add` (lines 58-75) -/

/-- Line 65: `strings.ToUpper(strings.ReplaceAll(*addSecret, " ", ""))`. -/
def normalizeSecret (addSecret : String) : String := toUpper (removeSpaces addSecret)

/-- The `add` command on the loaded collection: an error is the message printed before
the early `return` (nothing is saved), a result is the collection handed to
`saveAccounts`. -/
def add (entries : List Account) (addName addSecret : String) : Except String (List Account) :=
  if addName = "" ∨ addSecret = "" then .error "Error: name and secret are required"
  else
    let secret := normalizeSecret addSecret
    match decodeString NoPadding secret with
    | .ok _ => .ok (entries ++ [{ Name := addName, Secret := secret, Issuer := "" }])
    | .error _ =>
      match decodeString StdPadding secret with
      | .ok _ => .ok (entries ++ [{ Name := addName, Secret := secret, Issuer := "" }])
      | .error _ => .error "Error: Invalid Base32 secret"

/-- The collection on disk after `add`: the saved one, or the old one after a rejection. -/
def storeAfterAdd (entries : List Account) (addName addSecret : String) : List Account :=
  match add entries addName addSecret with
  | .ok es => es
  | .error _ => entries

/-! ## `delete` (lines 150-170) -/

/-- Line 159: the match of an account against the deletion target. -/
def matchesTarget (target : String) (acc : Account) : Bool :=
  contains (toLower acc.Name) (toLower target) || contains (toLower acc.Issuer) (toLower target)

/-- The loop of `delete`: `(newEntries, deleted)`. -/
def deleteLoop (target : String) : List Account → List Account × Nat
  | [] => ([], 0)
  | acc :: rest =>
    let r := deleteLoop target rest
    if matchesTarget target acc then (r.1, r.2 + 1) else (acc :: r.1, r.2)

/-- The collection on disk after `delete`: `newEntries` is saved only when something
was deleted. -/
def delete (entries : List Account) (target : String) : List Account :=
  let r := deleteLoop target entries
  if 0 < r.2 then r.1 else entries

/-- Collections reachable from the empty one by `add`, the import merge and `delete`. -/
inductive Reachable : List Account → Prop
  | empty : Reachable []
  | add (entries : List Account) (addName addSecret : String) :
      Reachable entries → Reachable (storeAfterAdd entries addName addSecret)
  | merge (entries : List Account) (records : List OtpParameters) :
      Reachable entries → Reachable (merge entries records).1
  | delete (entries : List Account) (target : String) :
      Reachable entries → Reachable (delete entries target)

/-! ## Code generation (`totp.GenerateCode`, called on line 228)

The generator is a library the sources only call; it is modelled from section 4.4 of the
specification (RFC 6238 over RFC 4226). -/

/-- Big-endian bytes of `x` on `n` bytes (`binary.BigEndian.PutUint64` for `n = 8`). -/
def bigEndian (n x : Nat) : List Nat :=
  (List.range n).reverse.map fun i => (x >>> (8 * i)) % 256

/-- Big-endian 32-bit word of four bytes. -/
def wordOfBytes (bs : List Nat) : Nat :=
  bs.foldl (fun acc b => acc * 256 + b) 0

/-- Splits a list into consecutive pieces of `n + 1` elements; `fuel` bounds the number of pieces. -/
def chunksOf (n : Nat) : Nat → List Nat → List (List Nat)
  | 0, _ => []
  | fuel + 1, xs => if xs = [] then [] else xs.take (n + 1) :: chunksOf n fuel (xs.drop (n + 1))

/-- Rotation to the left of a 32-bit word. -/
def rotl32 (x n : Nat) : Nat := ((x <<< n) ||| (x >>> (32 - n))) % 2 ^ 32

/-- SHA-1 message padding: the bit `1`, zero bytes, and the 64-bit big-endian bit length. -/
def sha1Pad (msg : List Nat) : List Nat :=
  msg ++ [0x80] ++ List.replicate ((64 - (msg.length + 9) % 64) % 64) 0 ++
    bigEndian 8 (msg.length * 8)

/-- SHA-1 message schedule: `k` further words after the ones in `w`. -/
def sha1Schedule : Nat → List Nat → List Nat
  | 0, w => w
  | k + 1, w =>
    let i := w.length
    sha1Schedule k (w ++ [rotl32 (w.getD (i - 3) 0 ^^^ w.getD (i - 8) 0 ^^^
      w.getD (i - 14) 0 ^^^ w.getD (i - 16) 0) 1])

/-- One SHA-1 round `t` with schedule word `wt` on the working variables. -/
def sha1Round (st : Nat × Nat × Nat × Nat × Nat) (t wt : Nat) : Nat × Nat × Nat × Nat × Nat :=
  let (a, b, c, d, e) := st
  let f :=
    if t < 20 then (b &&& c) ||| ((b ^^^ 0xFFFFFFFF) &&& d)
    else if t < 40 then b ^^^ c ^^^ d
    else if t < 60 then (b &&& c) ||| (b &&& d) ||| (c &&& d)
    else b ^^^ c ^^^ d
  let k :=
    if t < 20 then 0x5A827999
    else if t < 40 then 0x6ED9EBA1
    else if t < 60 then 0x8F1BBCDC
    else 0xCA62C1D6
  ((rotl32 a 5 + f + e + k + wt) % 2 ^ 32, a, rotl32 b 30, c, d)

/-- The eighty rounds over the schedule, from round `t` on. -/
def sha1Rounds : List Nat → Nat → Nat × Nat × Nat × Nat × Nat → Nat × Nat × Nat × Nat × Nat
  | [], _, st => st
  | wt :: ws, t, st => sha1Rounds ws (t + 1) (sha1Round st t wt)

/-- SHA-1 compression of one 64-byte block into the chaining value. -/
def sha1Block (h : Nat × Nat × Nat × Nat × Nat) (block : List Nat) : Nat × Nat × Nat × Nat × Nat :=
  let w := sha1Schedule 64 ((chunksOf 3 16 block).map wordOfBytes)
  let (a, b, c, d, e) := sha1Rounds w 0 h
  let (h0, h1, h2, h3, h4) := h
  ((h0 + a) % 2 ^ 32, (h1 + b) % 2 ^ 32, (h2 + c) % 2 ^ 32, (h3 + d) % 2 ^ 32, (h4 + e) % 2 ^ 32)

/-- Modelled from the spec: the 160-bit hash of section 4.4, step 3 (SHA-1, FIPS 180-4);
the digest of a byte string, 20 bytes. -/
def sha1 (msg : List Nat) : List Nat :=
  let padded := sha1Pad msg
  let (h0, h1, h2, h3, h4) :=
    (chunksOf 63 (padded.length / 64) padded).foldl sha1Block
      (0x67452301, 0xEFCDAB89, 0x98BADCFE, 0x10325476, 0xC3D2E1F0)
  bigEndian 4 h0 ++ bigEndian 4 h1 ++ bigEndian 4 h2 ++ bigEndian 4 h3 ++ bigEndian 4 h4

/-- Modelled from the spec: the keyed hash of section 4.4, step 3 (HMAC of RFC 2104 over
SHA-1, block size 64), with the secret as key. -/
def hmacSha1 (key msg : List Nat) : List Nat :=
  let k0 := if 64 < key.length then sha1 key else key
  let k := k0 ++ List.replicate (64 - k0.length) 0
  sha1 (k.map (· ^^^ 0x5C) ++ sha1 (k.map (· ^^^ 0x36) ++ msg))

/-- Formatting `%06d` of a value below one million. -/
def formatSixDigits (v : Nat) : String :=
  String.mk ((List.range 6).reverse.map fun i => Nat.digitChar (v / 10 ^ i % 10))

/-- Modelled from the spec: the code generator (section 4.4, steps 1 to 4), which the
sources only call (`totp.GenerateCode`, line 228). The secret is trimmed, padded with
equals signs to a multiple of eight bytes, upper-cased and decoded with the padded
standard alphabet; the 8-byte big-endian counter is hashed with HMAC-SHA1 keyed by the
secret; dynamic truncation takes the low 4 bits of the last hash byte as offset, reads
4 bytes there, masks the sign bit and reduces modulo `10^6`, zero-padded to 6 digits.
A decode failure is the error. -/
def hotpGenerateCode (secret : String) (counter : Nat) : Except Unit String :=
  let trimmed := trimSpace secret
  let n := (bytesOf trimmed).length % 8
  let padded := if n ≠ 0 then trimmed ++ String.mk (List.replicate (8 - n) '=') else trimmed
  match decodeString StdPadding (toUpper padded) with
  | .error _ => .error ()
  | .ok secretBytes =>
    let sum := hmacSha1 secretBytes (bigEndian 8 (counter % 2 ^ 64))
    let offset := sum.getD (sum.length - 1) 0 &&& 0xf
    let value := ((sum.getD offset 0 &&& 0x7f) <<< 24) |||
      ((sum.getD (offset + 1) 0 &&& 0xff) <<< 16) |||
      ((sum.getD (offset + 2) 0 &&& 0xff) <<< 8) |||
      (sum.getD (offset + 3) 0 &&& 0xff)
    .ok (formatSixDigits (value % 10 ^ 6))

/-- Modelled from the spec: the time counter `T = floor(unixSeconds / 30)` (section 4.4,
step 2) fed to the generator, for an instant `unix` seconds after the epoch. -/
def generateCode (secret : String) (unix : Nat) : Except Unit String :=
  hotpGenerateCode secret (unix / 30)

/-- Lines 228-231: the code shown for an account, `ERROR` when generation fails. -/
def displayCode (secret : String) (unix : Nat) : String :=
  match generateCode secret unix with
  | .ok code => code
  | .error _ => "ERROR"

/-! ## The canonical form of the specification -/

/-- The canonical secret in the words of the specification: the upper-cased input with
all whitespace and all equals signs removed. -/
def canonicalForm (raw : String) : String :=
  String.mk ((toUpper raw).data.filter fun c => !isSpaceRune c && c != '=')

/-- The input of the specification's normalisation before validation: upper-cased and
stripped of all whitespace. -/
def upperStripped (raw : String) : String :=
  String.mk ((toUpper raw).data.filter fun c => !isSpaceRune c)

/-- A text is an RFC 4648 base-32 encoding, padded or unpadded, of at least one byte. -/
def IsBase32Encoding (s : String) : Prop :=
  ∃ bytes : List (Fin 256), bytes ≠ [] ∧
    (s = encodeToStringNoPad bytes ∨ s = encodeToStringStd bytes)

/-! # Theorems -/

/-! ## Lemmas on the merge loop -/

theorem secretExists_iff (es : List Account) (s : String) :
    secretExists es s = true ↔ s ∈ es.map Account.Secret := by
  induction es with
  | nil => simp [secretExists]
  | cons e es ih =>
    by_cases h : e.Secret = s
    · simp [secretExists, h]
    · have h2 : ¬ s = e.Secret := fun h3 => h h3.symm
      simp [secretExists, h, h2, ih]

theorem mergeStep_of_exists (st : List Account × Nat) (p : OtpParameters)
    (h : (importedAccount p).Secret ∈ st.1.map Account.Secret) : mergeStep st p = st := by
  have h2 : secretExists st.1 (encodeToStringNoPad p.Secret) = true :=
    (secretExists_iff _ _).2 h
  simp [mergeStep, h2]

theorem mergeStep_of_not_exists (st : List Account × Nat) (p : OtpParameters)
    (h : (importedAccount p).Secret ∉ st.1.map Account.Secret) :
    mergeStep st p = (st.1 ++ [importedAccount p], st.2 + 1) := by
  have h2 : secretExists st.1 (encodeToStringNoPad p.Secret) = false := by
    cases h3 : secretExists st.1 (encodeToStringNoPad p.Secret) with
    | false => rfl
    | true => exact absurd ((secretExists_iff _ _).1 h3) h
  simp [mergeStep, h2]

theorem foldl_mergeStep_sublist (C : List OtpParameters) (E : List Account) (n : Nat) :
    ∃ sub : List OtpParameters, sub.Sublist C ∧
      C.foldl mergeStep (E, n) = (E ++ sub.map importedAccount, n + sub.length) := by
  induction C generalizing E n with
  | nil => exact ⟨[], List.Sublist.slnil, by simp⟩
  | cons p C ih =>
    by_cases h : (importedAccount p).Secret ∈ E.map Account.Secret
    · obtain ⟨sub, hs, he⟩ := ih E n
      refine ⟨sub, hs.cons p, ?_⟩
      rw [List.foldl_cons, mergeStep_of_exists (E, n) p h, he]
    · obtain ⟨sub, hs, he⟩ := ih (E ++ [importedAccount p]) (n + 1)
      refine ⟨p :: sub, hs.cons₂ p, ?_⟩
      rw [List.foldl_cons, mergeStep_of_not_exists (E, n) p h, he]
      simp [Nat.add_assoc, Nat.add_comm 1]

theorem foldl_mergeStep_unique (C : List OtpParameters) (E : List Account) (n : Nat)
    (h : UniqueBySecret E) : UniqueBySecret (C.foldl mergeStep (E, n)).1 := by
  induction C generalizing E n with
  | nil => simpa using h
  | cons p C ih =>
    rw [List.foldl_cons]
    by_cases hp : (importedAccount p).Secret ∈ E.map Account.Secret
    · rw [mergeStep_of_exists (E, n) p hp]; exact ih E n h
    · rw [mergeStep_of_not_exists (E, n) p hp]
      apply ih
      unfold UniqueBySecret at h ⊢
      rw [List.map_append, List.nodup_append]
      refine ⟨h, by simp, ?_⟩
      intro a ha hb
      simp at hb
      exact hp (hb ▸ ha)

theorem foldl_mergeStep_noop (C : List OtpParameters) (E : List Account) (n : Nat)
    (h : ∀ p ∈ C, (importedAccount p).Secret ∈ E.map Account.Secret) :
    C.foldl mergeStep (E, n) = (E, n) := by
  induction C with
  | nil => rfl
  | cons p C ih =>
    rw [List.foldl_cons, mergeStep_of_exists (E, n) p (h p (List.mem_cons_self _ _))]
    exact ih fun q hq => h q (List.mem_cons_of_mem _ hq)

theorem foldl_mergeStep_mono (C : List OtpParameters) (E : List Account) (n : Nat)
    (s : String) (h : s ∈ E.map Account.Secret) :
    s ∈ (C.foldl mergeStep (E, n)).1.map Account.Secret := by
  obtain ⟨sub, _, he⟩ := foldl_mergeStep_sublist C E n
  rw [he, List.map_append]
  exact List.mem_append_left _ h

theorem foldl_mergeStep_covers (C : List OtpParameters) (E : List Account) (n : Nat) :
    ∀ p ∈ C, (importedAccount p).Secret ∈ (C.foldl mergeStep (E, n)).1.map Account.Secret := by
  induction C generalizing E n with
  | nil => intro p hp; cases hp
  | cons q C ih =>
    intro p hp
    rw [List.foldl_cons]
    rcases List.mem_cons.1 hp with rfl | hp
    · by_cases h : (importedAccount p).Secret ∈ E.map Account.Secret
      · rw [mergeStep_of_exists (E, n) p h]
        exact foldl_mergeStep_mono C E n _ h
      · rw [mergeStep_of_not_exists (E, n) p h]
        exact foldl_mergeStep_mono C _ _ _ (by simp)
    · exact ih _ _ p hp

theorem foldl_mergeStep_filter_of_mem (C : List OtpParameters) (E : List Account) (n : Nat)
    (s : String) (h : s ∈ E.map Account.Secret) :
    (C.foldl mergeStep (E, n)).1.filter (fun a => a.Secret == s) =
      E.filter (fun a => a.Secret == s) := by
  induction C generalizing E n with
  | nil => rfl
  | cons p C ih =>
    rw [List.foldl_cons]
    by_cases hp : (importedAccount p).Secret ∈ E.map Account.Secret
    · rw [mergeStep_of_exists (E, n) p hp]; exact ih E n h
    · rw [mergeStep_of_not_exists (E, n) p hp]
      have hne : (importedAccount p).Secret ≠ s := fun hc => hp (hc ▸ h)
      rw [ih (E ++ [importedAccount p]) (n + 1) (by simp [List.map_append] at h ⊢; exact Or.inl h)]
      simp [List.filter_append, List.filter_cons, hne]

theorem foldl_mergeStep_first (C : List OtpParameters) (E : List Account) (n : Nat)
    (s : String) (q : OtpParameters) (hE : s ∉ E.map Account.Secret)
    (hq : C.find? (fun r => (importedAccount r).Secret == s) = some q) :
    (C.foldl mergeStep (E, n)).1.filter (fun a => a.Secret == s) = [importedAccount q] := by
  induction C generalizing E n with
  | nil => simp at hq
  | cons p C ih =>
    rw [List.foldl_cons]
    by_cases hps : (importedAccount p).Secret = s
    · have hpq : p = q := by simpa [List.find?_cons, hps] using hq
      subst hpq
      rw [mergeStep_of_not_exists (E, n) p (hps ▸ hE)]
      rw [foldl_mergeStep_filter_of_mem C _ _ s (by simp [hps])]
      have h0 : E.filter (fun a => a.Secret == s) = [] := by
        rw [List.filter_eq_nil_iff]
        intro a ha hc
        exact hE (List.mem_map.2 ⟨a, ha, by simpa using hc⟩)
      simp [List.filter_append, h0, List.filter_cons, hps]
    · have hq2 : C.find? (fun r => (importedAccount r).Secret == s) = some q := by
        simpa [List.find?_cons, hps] using hq
      by_cases hp : (importedAccount p).Secret ∈ E.map Account.Secret
      · rw [mergeStep_of_exists (E, n) p hp]; exact ih E n hE hq2
      · rw [mergeStep_of_not_exists (E, n) p hp]
        apply ih _ _ _ hq2
        simp only [List.map_append, List.map_cons, List.map_nil, List.mem_append,
          List.mem_singleton, not_or]
        exact ⟨hE, fun hc => hps hc.symm⟩

/-! ## The import merge loop: uniqueness, idempotence, frame, first occurrence -/

/-- Claim C3. For every collection whose secrets are pairwise distinct and every list of
decoded migration records, the collection produced by the import merge loop again has
pairwise distinct secrets. -/
theorem merge_preserves_unique (entries : List Account) (records : List OtpParameters)
    (h : UniqueBySecret entries) : UniqueBySecret (merge entries records).1 :=
  foldl_mergeStep_unique records entries 0 h

/-- Instance of C3: merging a record that repeats an existing secret and two new records
with equal bytes into a one-account collection. -/
theorem merge_preserves_unique_witness :
    UniqueBySecret [⟨"a", "MY", ""⟩] ∧
      UniqueBySecret (merge [⟨"a", "MY", ""⟩]
        [⟨[102], "b", ""⟩, ⟨[102, 111], "c", "x"⟩, ⟨[102, 111], "d", ""⟩]).1 :=
  ⟨by decide, merge_preserves_unique _ _ (by decide)⟩

/-- Claim C4. Merge is idempotent: merging the candidate list a second time into the
result of the first merge returns that same collection and reports zero added accounts. -/
theorem merge_idempotent (entries : List Account) (records : List OtpParameters) :
    merge (merge entries records).1 records = ((merge entries records).1, 0) :=
  foldl_mergeStep_noop records _ 0 (foldl_mergeStep_covers records entries 0)

/-- Claim C5. Merge returns the existing collection followed by exactly `countAdded`
accounts, built in candidate order from a subsequence of the candidates; hence the result
has `len(existing) + countAdded` accounts and the existing ones are an unchanged prefix. -/
theorem merge_appends_sublist (entries : List Account) (records : List OtpParameters) :
    ∃ added : List OtpParameters, added.Sublist records ∧
      (merge entries records).1 = entries ++ added.map importedAccount ∧
      (merge entries records).2 = added.length ∧
      (merge entries records).1.length = entries.length + (merge entries records).2 := by
  obtain ⟨sub, hs, he⟩ := foldl_mergeStep_sublist records entries 0
  refine ⟨sub, hs, ?_, ?_, ?_⟩
  · simp [merge, he]
  · simp [merge, he]
  · simp [merge, he]

/-- Claim C6. First occurrence wins: if the secret of a candidate does not occur in the
existing collection, the result holds exactly one account with that secret, and it is the
account built from the first candidate carrying that secret; in particular two records
with equal secret bytes merged into a collection lacking that secret add one account,
built from the first record, with `countAdded = 1`. -/
theorem merge_first_occurrence_wins (entries : List Account) (records : List OtpParameters)
    (p : OtpParameters) (hp : p ∈ records)
    (hE : ∀ e ∈ entries, e.Secret ≠ (importedAccount p).Secret) :
    (∃ q, records.find? (fun r => (importedAccount r).Secret == (importedAccount p).Secret)
          = some q ∧
        (merge entries records).1.filter (fun a => a.Secret == (importedAccount p).Secret)
          = [importedAccount q]) ∧
      ∀ q : OtpParameters, q.Secret = p.Secret →
        merge entries [p, q] = (entries ++ [importedAccount p], 1) := by
  have hE2 : (importedAccount p).Secret ∉ entries.map Account.Secret := by
    intro hc
    obtain ⟨e, he, hes⟩ := List.mem_map.1 hc
    exact hE e he hes
  constructor
  · cases hf : records.find? (fun r => (importedAccount r).Secret == (importedAccount p).Secret) with
    | none =>
      have := List.find?_eq_none.1 hf p hp
      simp at this
    | some q => exact ⟨q, rfl, foldl_mergeStep_first records entries 0 _ q hE2 hf⟩
  · intro q hq
    have hqs : (importedAccount q).Secret = (importedAccount p).Secret := by
      simp [importedAccount, hq]
    unfold merge
    rw [List.foldl_cons, mergeStep_of_not_exists (entries, 0) p hE2, List.foldl_cons,
      mergeStep_of_exists _ q (by simp [hqs])]
    rfl

/-- Instance of C6: two records with the bytes of `f` under different names, merged into a
collection that holds another secret. -/
theorem merge_first_occurrence_wins_witness :
    (∃ q, [(⟨[102], "first", "Issuer"⟩ : OtpParameters), ⟨[102], "second", ""⟩].find?
          (fun r => (importedAccount r).Secret ==
            (importedAccount ⟨[102], "first", "Issuer"⟩).Secret) = some q ∧
        (merge [⟨"a", "MZXQ", ""⟩] [⟨[102], "first", "Issuer"⟩, ⟨[102], "second", ""⟩]).1.filter
          (fun a => a.Secret == (importedAccount ⟨[102], "first", "Issuer"⟩).Secret)
          = [importedAccount q]) ∧
      ∀ q : OtpParameters, q.Secret = [102] →
        merge [⟨"a", "MZXQ", ""⟩] [⟨[102], "first", "Issuer"⟩, q] =
          ([⟨"a", "MZXQ", ""⟩] ++ [importedAccount ⟨[102], "first", "Issuer"⟩], 1) :=
  merge_first_occurrence_wins [⟨"a", "MZXQ", ""⟩]
    [⟨[102], "first", "Issuer"⟩, ⟨[102], "second", ""⟩] ⟨[102], "first", "Issuer"⟩
    (by simp) (by decide)

/-! ## Remaining seconds -/

/-- Claim C7, counterexample. One second before the epoch is an `int64` instant for which
the remaining-seconds value is 31, outside `[1, 30]`. -/
theorem remainder_before_epoch :
    IsInt64 (-1) ∧ remainder (-1) = 31 ∧ ¬ (1 ≤ remainder (-1) ∧ remainder (-1) ≤ 30) := by
  refine ⟨by unfold IsInt64; decide, by decide, by decide⟩

/-- Claim C7, amended. For every `int64` instant at or after the epoch the remaining-seconds
value lies in `[1, 30]`; for an instant before the epoch it lies in `[30, 59]`. -/
theorem remainder_range (unix : Int) (h : IsInt64 unix) :
    (0 ≤ unix → 1 ≤ remainder unix ∧ remainder unix ≤ 30) ∧
      (unix < 0 → 30 ≤ remainder unix ∧ remainder unix ≤ 59) := by
  unfold remainder period
  constructor
  · intro h0
    have h1 : 0 ≤ Int.tmod unix 30 := Int.tmod_nonneg _ h0
    have h2 : Int.tmod unix 30 < 30 := Int.tmod_lt_of_pos _ (by decide)
    omega
  · intro h0
    obtain ⟨n, rfl⟩ := Int.eq_negSucc_of_lt_zero h0
    have h3 : Int.tmod (Int.negSucc n) 30 = -(((n + 1) % 30 : Nat) : Int) := rfl
    have h4 : (n + 1) % 30 < 30 := Nat.mod_lt _ (by decide)
    omega

/-- Instance of C7 amended at Unix time 59, where one second remains. -/
theorem remainder_range_witness :
    IsInt64 59 ∧ (0 : Int) ≤ 59 ∧ 1 ≤ remainder 59 ∧ remainder 59 ≤ 30 :=
  ⟨by unfold IsInt64; decide, by decide, (remainder_range 59 (by unfold IsInt64; decide)).1 (by decide)⟩

/-! ## Code generation -/

/-- Claim C8, counterexample. The code shown for the secret `JBSWY3DPEHPK3PXP` at Unix
time 59 is not `287082`. -/
theorem code_at_59_not_reference : displayCode "JBSWY3DPEHPK3PXP" 59 ≠ "287082" := by
  decide!

/-- Claim C8, amended. At Unix time 59 the secret `JBSWY3DPEHPK3PXP` yields the code
`996554`; the RFC 6238 reference code `287082` is the one of the reference key
`12345678901234567890`, whose base-32 form is `GEZDGNBVGY3TQOJQGEZDGNBVGY3TQOJQ`. -/
theorem code_at_59 :
    displayCode "JBSWY3DPEHPK3PXP" 59 = "996554" ∧
      displayCode "GEZDGNBVGY3TQOJQGEZDGNBVGY3TQOJQ" 59 = "287082" := by
  decide!

/-! ## Names of appended accounts -/

/-- An accepted `add` had a non-empty name and a non-empty raw secret (guard of line 60)
and appended one account with the normalised secret. -/
theorem add_ok_inv (entries : List Account) (addName addSecret : String) (es : List Account)
    (h : add entries addName addSecret = .ok es) :
    addName ≠ "" ∧ addSecret ≠ "" ∧
      es = entries ++ [{ Name := addName, Secret := normalizeSecret addSecret, Issuer := "" }] := by
  unfold add at h
  by_cases h0 : addName = "" ∨ addSecret = ""
  · simp [h0] at h
  · rw [if_neg h0] at h
    refine ⟨fun hc => h0 (Or.inl hc), fun hc => h0 (Or.inr hc), ?_⟩
    cases h1 : decodeString NoPadding (normalizeSecret addSecret) with
    | ok v => simp [h1] at h; exact h.symm
    | error e =>
      cases h2 : decodeString StdPadding (normalizeSecret addSecret) with
      | ok v => simp [h1, h2] at h; exact h.symm
      | error e2 => simp [h1, h2] at h

/-- Claim C10, on the code. Importing a record whose name and issuer are both empty
appends an account whose stored name is the empty string; the `add` path rejects an empty
name (`add_ok_inv`), the import loop has no such test. -/
theorem import_stores_empty_name :
    merge [] [⟨[102], "", ""⟩] = ([⟨"", "MY", ""⟩], 1) ∧
      (importedAccount ⟨[102], "", ""⟩).Name = "" := by
  decide

/-! ## `add`: acceptance of secrets -/

/-- Claim C2, on the code. The secret made of one space is not the empty string, so it
passes the guard of line 60; it normalises to the empty text, which the decoder accepts
with zero decoded bytes, and the account is appended with an empty secret. -/
theorem add_accepts_blank_secret :
    normalizeSecret " " = "" ∧ decodeString NoPadding (normalizeSecret " ") = .ok [] ∧
      add [] "a" " " = .ok [⟨"a", "", ""⟩] := by
  decide

/-- Claim C9, on the code. Two `add` commands with the same secret, starting from the empty
collection, reach a collection holding that secret twice. -/
theorem add_duplicates_secret :
    Reachable [⟨"a", "MY", ""⟩, ⟨"b", "MY", ""⟩] ∧
      ¬ UniqueBySecret [⟨"a", "MY", ""⟩, ⟨"b", "MY", ""⟩] := by
  refine ⟨?_, by decide⟩
  have h1 : Reachable (storeAfterAdd [] "a" "MY") := Reachable.add [] "a" "MY" Reachable.empty
  have h2 := Reachable.add (storeAfterAdd [] "a" "MY") "b" "MY" h1
  have e : storeAfterAdd (storeAfterAdd [] "a" "MY") "b" "MY" =
      [⟨"a", "MY", ""⟩, ⟨"b", "MY", ""⟩] := by decide
  rw [e] at h2
  exact h2

theorem deleteLoop_sublist (target : String) (entries : List Account) :
    (deleteLoop target entries).1.Sublist entries := by
  induction entries with
  | nil => exact List.Sublist.slnil
  | cons a es ih =>
    unfold deleteLoop
    by_cases h : matchesTarget target a = true
    · simp only [h, if_true]; exact ih.cons a
    · simp only [h]; exact ih.cons₂ a

/-- The `delete` command keeps secrets pairwise distinct. -/
theorem delete_preserves_unique (entries : List Account) (target : String)
    (h : UniqueBySecret entries) : UniqueBySecret (delete entries target) := by
  unfold delete
  by_cases h0 : 0 < (deleteLoop target entries).2
  · simp only [h0, if_true]
    exact List.Nodup.sublist ((deleteLoop_sublist target entries).map _) h
  · simp only [h0, if_false]; exact h

/-! ## The base-32 decoder accepts what the encoder produces -/

theorem encodeStd_facts :
    ∀ b ∈ encodeStd, b ≠ 255 ∧ b ≠ 61 ∧ decodeMap b ≠ 255 ∧ b ≠ 13 ∧ b ≠ 10 ∧
      utf8EncodeRune (Char.ofNat b) = [b] ∧ isSpaceRune (Char.ofNat b) = false ∧
      Char.ofNat b ≠ '=' := by
  decide

theorem padByte_noPadding : padByte NoPadding = 255 := by decide

theorem padByte_stdPadding : padByte StdPadding = 61 := by decide

theorem decodeQuantum_full (padChar : Int) (olen k : Nat) (body rest dbuf : List Nat)
    (hb : ∀ c ∈ body, c ∈ encodeStd) (hp : padByte padChar = 255 ∨ padByte padChar = 61)
    (hk : body.length = k) :
    decodeQuantum padChar olen k dbuf (body ++ rest) =
      .ok (dbuf ++ body.map decodeMap, 8, false, rest) := by
  induction body generalizing k dbuf with
  | nil =>
    subst hk
    simp [decodeQuantum]
  | cons c body ih =>
    subst hk
    obtain ⟨h1, h2, h3, -⟩ := encodeStd_facts c (hb c (List.mem_cons_self _ _))
    have hc : c ≠ padByte padChar := by
      rcases hp with hp | hp <;> rw [hp] <;> assumption
    have := ih body.length (dbuf ++ [decodeMap c])
      (fun x hx => hb x (List.mem_cons_of_mem _ hx)) rfl
    simp [decodeQuantum, hc, h3, this]

theorem decodeQuantum_end_noPad (olen k : Nat) (body dbuf : List Nat)
    (hb : ∀ c ∈ body, c ∈ encodeStd) (hk : body.length < k) :
    decodeQuantum NoPadding olen k dbuf body =
      .ok (dbuf ++ body.map decodeMap, dbuf.length + body.length, true, []) := by
  induction body generalizing k dbuf with
  | nil =>
    obtain ⟨k, rfl⟩ : ∃ k2, k = k2 + 1 := ⟨k - 1, by simp at hk; omega⟩
    simp [decodeQuantum]
  | cons c body ih =>
    obtain ⟨k, rfl⟩ : ∃ k2, k = k2 + 1 := ⟨k - 1, by simp at hk; omega⟩
    obtain ⟨h1, h2, h3, -⟩ := encodeStd_facts c (hb c (List.mem_cons_self _ _))
    have hc : c ≠ padByte NoPadding := by rw [padByte_noPadding]; exact h1
    have := ih k (dbuf ++ [decodeMap c])
      (fun x hx => hb x (List.mem_cons_of_mem _ hx)) (by simp at hk; omega)
    simp [decodeQuantum, hc, h3, this]
    omega

theorem firstBadPadding_replicate (pad m cnt : Nat) :
    firstBadPadding pad (List.replicate m pad) cnt = none := by
  unfold firstBadPadding
  rw [List.find?_eq_none]
  intro k _
  by_cases hk : k < m
  · simp [List.getD_eq_getElem?_getD, List.getElem?_replicate, hk]
  · simp [hk]

theorem decodeQuantum_end_std (olen k p : Nat) (body dbuf : List Nat)
    (hb : ∀ c ∈ body, c ∈ encodeStd) (hk : body.length < k)
    (hj : dbuf.length + body.length = 2 ∨ dbuf.length + body.length = 4 ∨
      dbuf.length + body.length = 5 ∨ dbuf.length + body.length = 7)
    (hp : dbuf.length + body.length + p = 8) :
    decodeQuantum StdPadding olen k dbuf (body ++ List.replicate p 61) =
      .ok (dbuf ++ body.map decodeMap, dbuf.length + body.length, true,
        List.replicate (p - 1) 61) := by
  induction body generalizing k dbuf with
  | nil =>
    obtain ⟨k, rfl⟩ : ∃ k2, k = k2 + 1 := ⟨k - 1, by simp at hk; omega⟩
    obtain ⟨p, rfl⟩ : ∃ p2, p = p2 + 1 := ⟨p - 1, by simp at hp hj; omega⟩
    simp only [List.length_nil, Nat.add_zero] at hj hp
    have h1 : 2 ≤ dbuf.length := by omega
    have h2 : p < 8 := by omega
    have h3 : ¬ (p + dbuf.length < 8 - 1) := by omega
    have h4 : ¬ (dbuf.length = 1 ∨ dbuf.length = 3 ∨ dbuf.length = 6) := by omega
    have h5 := firstBadPadding_replicate 61 p (8 - 1 - dbuf.length)
    simp [decodeQuantum, List.replicate_succ, padByte_stdPadding, h1, h2, h3, h4, h5]
  | cons c body ih =>
    obtain ⟨k, rfl⟩ : ∃ k2, k = k2 + 1 := ⟨k - 1, by simp at hk; omega⟩
    obtain ⟨h1, h2, h3, -⟩ := encodeStd_facts c (hb c (List.mem_cons_self _ _))
    have hc : c ≠ padByte StdPadding := by rw [padByte_stdPadding]; exact h2
    have := ih k (dbuf ++ [decodeMap c])
      (fun x hx => hb x (List.mem_cons_of_mem _ hx)) (by simp at hk; omega)
      (by simp at hj ⊢; omega) (by simp at hp ⊢; omega)
    simp [decodeQuantum, hc, h3, this]
    omega

theorem decodeLoop_noPad_ok (olen : Nat) (fuel : Nat) (src dst : List Nat)
    (hb : ∀ c ∈ src, c ∈ encodeStd) (hf : src.length < fuel) :
    ∃ out, decodeLoop NoPadding olen fuel src dst = .ok out := by
  induction fuel generalizing src dst with
  | zero => omega
  | succ fuel ih =>
    by_cases hs : src = []
    · exact ⟨dst, by simp [decodeLoop, hs]⟩
    · by_cases h8 : 8 ≤ src.length
      · have hq := decodeQuantum_full NoPadding olen 8 (src.take 8) (src.drop 8) []
          (fun c hc => hb c (List.mem_of_mem_take hc)) (Or.inl padByte_noPadding)
          (by simp; omega)
        rw [List.take_append_drop] at hq
        obtain ⟨out, ho⟩ := ih (src.drop 8) (dst ++ packQuantum ([] ++ (src.take 8).map decodeMap) 8)
          (fun c hc => hb c (List.mem_of_mem_drop hc))
          (by have : 0 < src.length := List.length_pos.2 hs
              simp; omega)
        exact ⟨out, by simp only [decodeLoop, hs, if_false, hq]; simpa using ho⟩
      · have hq := decodeQuantum_end_noPad olen 8 src [] hb (by omega)
        exact ⟨_, by simp only [decodeLoop, hs, if_false, hq]; rfl⟩

theorem decodeLoop_std_ok (olen : Nat) (fuel : Nat) (body : List Nat) (p : Nat) (dst : List Nat)
    (hb : ∀ c ∈ body, c ∈ encodeStd) (hm : (body.length + p) % 8 = 0)
    (hp : p = 0 ∨ p = 1 ∨ p = 3 ∨ p = 4 ∨ p = 6) (hf : body.length + p < fuel) :
    ∃ out, decodeLoop StdPadding olen fuel (body ++ List.replicate p 61) dst = .ok out := by
  induction fuel generalizing body dst with
  | zero => omega
  | succ fuel ih =>
    by_cases hs : body ++ List.replicate p 61 = []
    · exact ⟨dst, by simp only [decodeLoop, hs, if_true]⟩
    · by_cases h8 : 8 ≤ body.length
      · have hq := decodeQuantum_full StdPadding olen 8 (body.take 8)
          (body.drop 8 ++ List.replicate p 61) []
          (fun c hc => hb c (List.mem_of_mem_take hc)) (Or.inr padByte_stdPadding)
          (by simp; omega)
        rw [← List.append_assoc, List.take_append_drop] at hq
        obtain ⟨out, ho⟩ := ih (body.drop 8)
          (dst ++ packQuantum ([] ++ (body.take 8).map decodeMap) 8)
          (fun c hc => hb c (List.mem_of_mem_drop hc))
          (by simp; omega) (by simp; omega)
        exact ⟨out, by simp only [decodeLoop, hs, if_false, hq]; simpa using ho⟩
      · have hl : body.length + p = 8 := by
          have h0 : body.length + p ≠ 0 := by
            intro hc
            apply hs
            have hb0 : body.length = 0 := by omega
            have hp0 : p = 0 := by omega
            rw [List.length_eq_zero.1 hb0, hp0]; rfl
          omega
        have hq := decodeQuantum_end_std olen 8 p body [] hb (by omega)
          (by simp; omega) (by simp; omega)
        exact ⟨_, by simp only [decodeLoop, hs, if_false, hq]; rfl⟩

theorem encodeStd_getD_mem : ∀ i, i < 32 → encodeStd.getD i 0 ∈ encodeStd := by
  decide

theorem encodeQuantum_mem (src : List Nat) : ∀ x ∈ encodeQuantum src, x ∈ encodeStd := by
  intro x hx
  obtain ⟨b, -, rfl⟩ := List.mem_map.1 hx
  exact encodeStd_getD_mem _ (Nat.and_lt_two_pow b (by decide : 31 < 2 ^ 5))

theorem encodeQuantum_length (src : List Nat) : (encodeQuantum src).length = 8 := by
  simp [encodeQuantum]

theorem encodeChunks_spec (n : Nat) : ∀ xs : List Nat, xs.length ≤ n →
    (∀ x ∈ encodeChunks xs, x ∈ encodeStd) ∧
      (encodeChunks xs).length = (xs.length + 4) / 5 * 8 := by
  induction n using Nat.strong_induction_on with
  | _ n ih =>
    intro xs hn
    match xs, hn with
    | [], _ => simp [encodeChunks]
    | a :: b :: c :: d :: e :: rest, hn =>
      obtain ⟨h1, h2⟩ := ih rest.length (by simp at hn; omega) rest (Nat.le_refl _)
      constructor
      · intro x hx
        simp only [encodeChunks, List.mem_append] at hx
        rcases hx with hx | hx
        · exact encodeQuantum_mem _ x hx
        · exact h1 x hx
      · simp only [encodeChunks, List.length_append, encodeQuantum_length, h2, List.length_cons]
        omega
    | [a], _ => exact ⟨by simpa [encodeChunks] using encodeQuantum_mem [a],
        by simp [encodeChunks, encodeQuantum_length]⟩
    | [a, b], _ => exact ⟨by simpa [encodeChunks] using encodeQuantum_mem [a, b],
        by simp [encodeChunks, encodeQuantum_length]⟩
    | [a, b, c], _ => exact ⟨by simpa [encodeChunks] using encodeQuantum_mem [a, b, c],
        by simp [encodeChunks, encodeQuantum_length]⟩
    | [a, b, c, d], _ => exact ⟨by simpa [encodeChunks] using encodeQuantum_mem [a, b, c, d],
        by simp [encodeChunks, encodeQuantum_length]⟩

/-- The unpadded text of `n` bytes: bytes of the alphabet, `encodedLenNoPad n` of them. -/
theorem encodeBody_spec (bytes : List (Fin 256)) :
    (∀ x ∈ (encodeChunks (bytes.map Fin.val)).take (encodedLenNoPad bytes.length),
        x ∈ encodeStd) ∧
      ((encodeChunks (bytes.map Fin.val)).take (encodedLenNoPad bytes.length)).length
        = encodedLenNoPad bytes.length := by
  obtain ⟨h1, h2⟩ := encodeChunks_spec _ (bytes.map Fin.val) (Nat.le_refl _)
  constructor
  · intro x hx
    exact h1 x (List.mem_of_mem_take hx)
  · rw [List.length_take, h2, List.length_map]
    unfold encodedLenNoPad
    omega

theorem bytesOf_codes (l : List Nat) (h : ∀ b ∈ l, b ∈ encodeStd ∨ b = 61) :
    stripNewlines (bytesOf (String.mk (l.map Char.ofNat))) = l := by
  unfold bytesOf stripNewlines
  induction l with
  | nil => rfl
  | cons b l ih =>
    have hb : utf8EncodeRune (Char.ofNat b) = [b] ∧ b ≠ 13 ∧ b ≠ 10 := by
      rcases h b (List.mem_cons_self _ _) with hb | hb
      · obtain ⟨_, _, _, h4, h5, h6, _⟩ := encodeStd_facts b hb
        exact ⟨h6, h4, h5⟩
      · subst hb; decide
    have ih2 := ih fun x hx => h x (List.mem_cons_of_mem _ hx)
    simp only [List.map_cons, List.flatMap_cons, hb.1, List.singleton_append] at ih2 ⊢
    rw [List.filter_cons]
    simpa [hb.2.1, hb.2.2] using ih2

theorem decodeString_noPad_encode (bytes : List (Fin 256)) :
    ∃ out, decodeString NoPadding (encodeToStringNoPad bytes) = .ok out := by
  obtain ⟨h1, _⟩ := encodeBody_spec bytes
  unfold decodeString encodeToStringNoPad
  rw [bytesOf_codes _ fun b hb => Or.inl (h1 b hb)]
  exact decodeLoop_noPad_ok _ _ _ _ h1 (Nat.lt_succ_self _)

theorem decodeString_std_encode (bytes : List (Fin 256)) :
    ∃ out, decodeString StdPadding (encodeToStringStd bytes) = .ok out := by
  obtain ⟨h1, h2⟩ := encodeBody_spec bytes
  unfold decodeString encodeToStringStd
  rw [bytesOf_codes _ (by
    intro b hb
    rcases List.mem_append.1 hb with hb | hb
    · exact Or.inl (h1 b hb)
    · exact Or.inr (List.eq_of_mem_replicate hb))]
  refine decodeLoop_std_ok _ _ _ _ _ h1 ?_ ?_ (by simp)
  · rw [h2]; unfold encodedLenStd encodedLenNoPad; omega
  · unfold encodedLenStd encodedLenNoPad; omega

theorem encodeToStringNoPad_chars (bytes : List (Fin 256)) :
    ∀ c ∈ (encodeToStringNoPad bytes).data, isSpaceRune c = false ∧ c ≠ '=' := by
  obtain ⟨h1, _⟩ := encodeBody_spec bytes
  intro c hc
  unfold encodeToStringNoPad at hc
  obtain ⟨b, hb, rfl⟩ := List.mem_map.1 hc
  obtain ⟨_, _, _, _, _, _, h7, h8⟩ := encodeStd_facts b (h1 b hb)
  exact ⟨h7, h8⟩

theorem encode_ne_empty (bytes : List (Fin 256)) (hb : bytes ≠ []) :
    encodeToStringNoPad bytes ≠ "" ∧ encodeToStringStd bytes ≠ "" := by
  obtain ⟨_, h2⟩ := encodeBody_spec bytes
  have hl : 0 < bytes.length := List.length_pos.2 hb
  have h3 : 0 < encodedLenNoPad bytes.length := by unfold encodedLenNoPad; omega
  have h4 : (encodeToStringNoPad bytes).data.length = encodedLenNoPad bytes.length := by
    rw [show (encodeToStringNoPad bytes).data = List.map Char.ofNat
      ((encodeChunks (bytes.map Fin.val)).take (encodedLenNoPad bytes.length)) from rfl,
      List.length_map, h2]
  have h5 : (encodeToStringStd bytes).data.length =
      encodedLenNoPad bytes.length +
        (encodedLenStd bytes.length - encodedLenNoPad bytes.length) := by
    rw [show (encodeToStringStd bytes).data = List.map Char.ofNat
      ((encodeChunks (bytes.map Fin.val)).take (encodedLenNoPad bytes.length) ++
        List.replicate (encodedLenStd bytes.length - encodedLenNoPad bytes.length) 61) from rfl,
      List.length_map, List.length_append, h2, List.length_replicate]
  constructor
  · intro hc
    rw [hc] at h4
    have h6 : ("" : String).data.length = 0 := rfl
    omega
  · intro hc
    rw [hc] at h5
    have h6 : ("" : String).data.length = 0 := rfl
    omega

theorem normalize_eq_canonical (raw : String)
    (h : ∀ c ∈ (normalizeSecret raw).data, isSpaceRune c = false ∧ c ≠ '=') :
    normalizeSecret raw = canonicalForm raw := by
  unfold normalizeSecret canonicalForm toUpper removeSpaces at *
  simp only at h ⊢
  congr 1
  generalize raw.data = l at h ⊢
  induction l with
  | nil => rfl
  | cons c l ih =>
    by_cases hc : c = ' '
    · subst hc
      have e1 : toUpperRune ' ' = ' ' := by decide
      have e2 : isSpaceRune ' ' = true := by decide
      simp only [List.filter_cons, List.map_cons, e1, e2] at h ⊢
      simpa using ih (by simpa using h)
    · have hc2 : (c != ' ') = true := by simpa using hc
      simp only [List.filter_cons, hc2, if_true, List.map_cons, List.mem_cons, forall_eq_or_imp] at h ⊢
      obtain ⟨⟨h1, h2⟩, h3⟩ := h
      have h4 : (toUpperRune c != '=') = true := by simpa using h2
      simp only [h1, h4, Bool.not_false, Bool.and_self, if_true]
      rw [ih h3]

theorem normalizeSecret_empty : normalizeSecret "" = "" := by decide

/-! ## `add`: the stored secret -/

/-- Claim C1, counterexample. The padded text `MY======` is a base-32 encoding of one
byte; `add` stores it with its padding, while the canonical form is `MY`. A tab inside the
secret is whitespace that `add` does not remove: `M<tab>Y` is rejected although its
whitespace-free form `MY` is a valid encoding. -/
theorem add_keeps_padding :
    IsBase32Encoding (upperStripped "MY======") ∧
      add [] "a" "MY======" = .ok [⟨"a", "MY======", ""⟩] ∧
      canonicalForm "MY======" = "MY" ∧
      IsBase32Encoding (upperStripped "M\tY") ∧
      add [] "a" "M\tY" = .error "Error: Invalid Base32 secret" := by
  refine ⟨⟨[102], by decide, Or.inr (by decide)⟩, by decide, by decide,
    ⟨[102], by decide, Or.inl (by decide)⟩, by decide⟩

/-- Whenever the upper-cased, space-free input is a base-32 encoding, `add` accepts it and
stores that very text. -/
theorem add_accepts_encoding (entries : List Account) (addName addSecret : String)
    (hn : addName ≠ "") (h : IsBase32Encoding (normalizeSecret addSecret)) :
    add entries addName addSecret =
      .ok (entries ++ [⟨addName, normalizeSecret addSecret, ""⟩]) := by
  obtain ⟨bytes, hb, he⟩ := h
  have hne : normalizeSecret addSecret ≠ "" := by
    rcases he with he | he <;> rw [he]
    · exact (encode_ne_empty bytes hb).1
    · exact (encode_ne_empty bytes hb).2
  have hs : addSecret ≠ "" := by
    intro hc
    exact hne (hc ▸ normalizeSecret_empty)
  have h0 : ¬ (addName = "" ∨ addSecret = "") := by
    rintro (hc | hc)
    · exact hn hc
    · exact hs hc
  unfold add
  rw [if_neg h0]
  cases h1 : decodeString NoPadding (normalizeSecret addSecret) with
  | ok v => simp only [h1]
  | error e =>
    have h2 : ∃ out, decodeString StdPadding (normalizeSecret addSecret) = .ok out := by
      rcases he with he | he
      · obtain ⟨out, ho⟩ := decodeString_noPad_encode bytes
        rw [he, ho] at h1
        cases h1
      · rw [he]; exact decodeString_std_encode bytes
    obtain ⟨out, ho⟩ := h2
    simp only [h1, ho]

/-- Claim C1, amended. For every non-empty name and every input string whose upper-cased
form with all U+0020 spaces removed is an unpadded RFC 4648 base-32 encoding of at least
one byte, `add` appends one account whose secret is exactly the upper-cased form of the
input with all whitespace and all padding removed. -/
theorem add_stores_canonical (entries : List Account) (addName addSecret : String)
    (hn : addName ≠ "")
    (h : ∃ bytes : List (Fin 256), bytes ≠ [] ∧
      normalizeSecret addSecret = encodeToStringNoPad bytes) :
    add entries addName addSecret =
      .ok (entries ++ [⟨addName, canonicalForm addSecret, ""⟩]) := by
  obtain ⟨bytes, hb, he⟩ := h
  have hc : normalizeSecret addSecret = canonicalForm addSecret := by
    apply normalize_eq_canonical
    rw [he]
    exact encodeToStringNoPad_chars bytes
  rw [← hc]
  exact add_accepts_encoding entries addName addSecret hn ⟨bytes, hb, Or.inl he⟩

/-- Instance of C1 amended: the spaced lower-case input `m y`, whose normalised form `MY`
encodes one byte, is stored as `MY`. -/
theorem add_stores_canonical_witness :
    ("a" : String) ≠ "" ∧
      (∃ bytes : List (Fin 256), bytes ≠ [] ∧
        normalizeSecret "m y" = encodeToStringNoPad bytes) ∧
      canonicalForm "m y" = "MY" ∧
      add [] "a" "m y" = .ok ([] ++ [⟨"a", canonicalForm "m y", ""⟩]) :=
  ⟨by decide, ⟨[102], by decide, by decide⟩, by decide,
    add_stores_canonical [] "a" "m y" (by decide) ⟨[102], by decide, by decide⟩⟩

end TwoFA
